import Mathlib

/-!
Shallow embedding of the game-state simulation core of a falling-block
puzzle game (Rust sources: `src/main.rs`, `src/tetromino.rs`).

Modelling conventions:
* Rust `f32` timers are modelled as exact rationals (`ℚ`); the claims under
  study only concern the control flow of timer decrement / reset / compare,
  never rounding behaviour.
* Rust `Color` values are opaque constants in the game logic (they are only
  produced by named constants and copied around), so they are modelled as an
  enumeration of those named constants.
* The board `[[Option<(Color, TetrominoType, u32)>; 10]; 20]` is modelled as a
  list of 20 rows of 10 optional cells; well-formedness (`BoardWF`) is carried
  as a hypothesis where a theorem needs it.
* `u32` counters (`score`, `lines_cleared`, `next_piece_id`) are modelled as
  `Nat`; no claim concerns 32-bit overflow.
* The audio manager (`MusicManager`) and the `piece_statistics` HashMap are
  omitted: they are not referenced by any claim, and neither influences any
  other field.
* Randomness (`thread_rng` piece selection) is modelled by passing the chosen
  `TetrominoType` as an explicit argument (`rng`).
* Rust key-press queries (`is_key_pressed` / `is_key_down`) are modelled by an
  explicit input snapshot record passed to `process_input`.
* The `unwrap()` of the active piece in `process_input` (main.rs line 613) is
  modelled by returning `Option GameState`, `none` standing for the panic.
* The unbounded hard-drop loop (main.rs lines 595-607) is modelled with an
  explicit fuel parameter; for every state reachable in play the loop
  terminates long before any reasonable fuel is exhausted.
-/

namespace Tetris

/-- main.rs lines 176-179: the seven movable piece kinds plus the two
bonus-marker kinds used only for locked board cells. -/
inductive TetrominoType where
  | I | O | T | S | Z | J | L
  | BonusGold | BonusSilver
deriving DecidableEq

/-- The named `Color` constants that the game logic can store in a cell or a
piece (NES_COLORS entries, GOLD_COLOR, SILVER_COLOR, BLACK_COLOR). -/
inductive GColor where
  | cyan | yellow | purple | green | red | blue | orange
  | gold | silver | black
deriving DecidableEq

/-- `t as usize` for the `TetrominoType` enum. -/
def tIdx : TetrominoType → Nat
  | .I => 0 | .O => 1 | .T => 2 | .S => 3 | .Z => 4 | .J => 5 | .L => 6
  | .BonusGold => 7 | .BonusSilver => 8

/-- main.rs lines 181-189: `TETROMINO_SHAPES`. -/
def TETROMINO_SHAPES : List (List (Int × Int)) :=
  [ [(0,0),(1,0),(2,0),(3,0)],    -- I
    [(0,0),(1,0),(0,1),(1,1)],    -- O
    [(1,0),(0,1),(1,1),(2,1)],    -- T
    [(1,0),(2,0),(0,1),(1,1)],    -- S
    [(0,0),(1,0),(1,1),(2,1)],    -- Z
    [(0,0),(0,1),(1,1),(2,1)],    -- J
    [(0,0),(1,0),(2,0),(0,1)] ]   -- L

/-- main.rs lines 191-199: `TETROMINO_ROTATION_OFFSETS`.  (The source
comment on the `O` entry reads "O (doesn't rotate)".) -/
def TETROMINO_ROTATION_OFFSETS : List (Int × Int) :=
  [ (1,0),   -- I
    (0,0),   -- O (doesn't rotate)
    (1,1),   -- T
    (1,1),   -- S
    (1,1),   -- Z
    (1,1),   -- J
    (1,1) ]  -- L

/-- main.rs lines 48-56: `NES_COLORS`. -/
def NES_COLORS : List GColor :=
  [.cyan, .yellow, .purple, .green, .red, .blue, .orange]

/-- `TETROMINO_SHAPES[t as usize]` (indexing a 7-entry table; the bonus kinds
would make the Rust program panic and are never used here). -/
def shapeOf (t : TetrominoType) : List (Int × Int) :=
  TETROMINO_SHAPES.getD (tIdx t) []

/-- `NES_COLORS[t as usize]`. -/
def nesColorOf (t : TetrominoType) : GColor :=
  NES_COLORS.getD (tIdx t) .black

/-- main.rs lines 201-207: the active / next / held piece. -/
structure Tetromino where
  shape : List (Int × Int)
  pos : Int × Int
  color : GColor
  t_type : TetrominoType
deriving DecidableEq

/-- main.rs lines 210-217: `Tetromino::new` — canonical spawn position
`(GRID_WIDTH/2 - 2, 0) = (3, 0)`. -/
def Tetromino.new (t : TetrominoType) : Tetromino :=
  { shape := shapeOf t, pos := (3, 0), color := nesColorOf t, t_type := t }

/-- main.rs lines 220-234: `rotate_shape` — translate each offset relative to
the pivot, rotate 90°, translate back. -/
def rotate_shape (shape : List (Int × Int)) (t : TetrominoType)
    (clockwise : Bool) : List (Int × Int) :=
  let p := TETROMINO_ROTATION_OFFSETS.getD (tIdx t) (0, 0)
  shape.map fun c =>
    if clockwise then (p.1 + (c.2 - p.2), p.2 - (c.1 - p.1))
    else (p.1 - (c.2 - p.2), p.2 + (c.1 - p.1))

/-- A board cell payload: the Rust tuple `(Color, TetrominoType, u32)`
(main.rs line 248). -/
structure Cell where
  color : GColor
  t_type : TetrominoType
  piece_id : Nat
deriving DecidableEq

/-- One board row: 10 optional cells. -/
abbrev Row := List (Option Cell)

/-- The board: 20 rows (main.rs line 248). -/
abbrev Board := List Row

def emptyRow : Row := List.replicate 10 none

def emptyBoard : Board := List.replicate 20 emptyRow

/-- Dimension well-formedness of a board (always true of the Rust fixed-size
array). -/
def BoardWF (b : Board) : Prop :=
  b.length = 20 ∧ ∀ r ∈ b, r.length = 10

instance (b : Board) : Decidable (BoardWF b) := by
  unfold BoardWF; infer_instance

/-- `self.board[y][x]` (in-range in every Rust use; out-of-range reads yield
`none` here). -/
def boardGet (b : Board) (x y : Nat) : Option Cell :=
  (b.getD y []).getD x none

/-- `self.board[y][x] = v`. -/
def boardSet (b : Board) (x y : Nat) (v : Option Cell) : Board :=
  b.set y ((b.getD y []).set x v)

/-- main.rs lines 236-244: `SquareEffect` — an in-progress bonus-square
reveal. -/
structure SquareEffect where
  x : Nat
  y : Nat
  is_gold : Bool
  timer : ℚ
  flash_on : Bool
  blinks_remaining : Nat
  original : List (List Cell)
deriving DecidableEq

/-- main.rs lines 246-276: `GameState` (music manager and piece statistics
omitted, see the header comment). -/
structure GameState where
  board : Board
  tetromino : Option Tetromino
  next_tetromino : Option Tetromino
  hold_tetromino : Option Tetromino
  hold_used : Bool
  started : Bool
  paused : Bool
  in_panic : Bool
  game_over : Bool
  lines_cleared : Nat
  score : Nat
  left_timer : ℚ
  right_timer : ℚ
  fall_timer : ℚ
  line_clear_timer : ℚ
  clearing_lines : List Nat
  active_squares : List SquareEffect
  next_piece_id : Nat
deriving DecidableEq

/-- main.rs lines 279-316: `GameState::new` (sans music/statistics). -/
def GameState.new : GameState :=
  { board := emptyBoard
    tetromino := none
    next_tetromino := none
    hold_tetromino := none
    hold_used := false
    started := false
    paused := false
    in_panic := false
    game_over := false
    lines_cleared := 0
    score := 0
    left_timer := 0
    right_timer := 0
    fall_timer := 0
    line_clear_timer := 0
    clearing_lines := []
    active_squares := []
    next_piece_id := 1 }

/-- main.rs lines 376-388: `GameState::check_collision` — true iff some
shape offset lands outside `[0,10) × [0,20)` or on an occupied cell.  A pure
query: it takes the board and returns a `Bool`, touching no state. -/
def check_collision (b : Board) (shape : List (Int × Int))
    (pos : Int × Int) : Bool :=
  shape.any fun d =>
    if pos.1 + d.1 < 0 ∨ 10 ≤ pos.1 + d.1 ∨ pos.2 + d.2 < 0 ∨ 20 ≤ pos.2 + d.2
    then true
    else (boardGet b (pos.1 + d.1).toNat (pos.2 + d.2).toNat).isSome

/-- main.rs lines 394-400: the body of the merge loop — write one cell of
the locking piece, guarded by the bounds check. -/
def lock_write (t : Tetromino) (id : Nat) (b : Board) (d : Int × Int) :
    Board :=
  if 0 ≤ t.pos.1 + d.1 ∧ t.pos.1 + d.1 < 10 ∧
     0 ≤ t.pos.2 + d.2 ∧ t.pos.2 + d.2 < 20 then
    boardSet b (t.pos.1 + d.1).toNat (t.pos.2 + d.2).toNat
      (some ⟨t.color, t.t_type, id⟩)
  else b

/-- main.rs lines 391-401: the merge step of `lock_tetromino` — allocate a
fresh piece id and write the active piece's cells into the board. -/
def lock_merge (s : GameState) : GameState :=
  match s.tetromino with
  | none => s
  | some t =>
    { s with board := t.shape.foldl (lock_write t s.next_piece_id) s.board,
             next_piece_id := s.next_piece_id + 1 }

/-- main.rs lines 402-407: `for (i, row) in self.board.iter().enumerate()`,
collecting the indices of fully occupied rows; `n` is the running index. -/
def full_rows_from (n : Nat) : Board → List Nat
  | [] => []
  | r :: rs =>
    if r.all Option.isSome then n :: full_rows_from (n + 1) rs
    else full_rows_from (n + 1) rs

def full_rows (b : Board) : List Nat := full_rows_from 0 b

/-- main.rs lines 445-471: `GameState::spawn_new_tetromino`; the randomly
drawn replacement kind is the explicit `rng` argument. -/
def spawn_new_tetromino (rng : TetrominoType) (s : GameState) : GameState :=
  if !s.started then s
  else
    match s.next_tetromino with
    | none => s
    | some nt =>
      if check_collision s.board nt.shape nt.pos then
        { s with game_over := true, started := false }
      else
        { s with tetromino := some nt,
                 next_tetromino := some (Tetromino.new rng),
                 hold_used := false,
                 fall_timer := 0 }

/-- main.rs lines 479-501 (inside `check_for_4x4_squares`): the candidate
window is fully occupied and contains no bonus-marker cell. -/
def window_ok (b : Board) (x y : Nat) : Bool :=
  (List.range 4).all fun dy =>
    (List.range 4).all fun dx =>
      (boardGet b (x + dx) (y + dy)).any fun c =>
        !(c.t_type == TetrominoType.BonusGold
          || c.t_type == TetrominoType.BonusSilver)

/-- main.rs lines 480-489: the `original` 4×4 snapshot; entries default to
`(BLACK_COLOR, I, 0)` exactly as the Rust array is pre-initialised. -/
def orig_of (b : Board) (x y : Nat) : List (List Cell) :=
  (List.range 4).map fun dy =>
    (List.range 4).map fun dx =>
      (boardGet b (x + dx) (y + dy)).getD ⟨.black, .I, 0⟩

/-- main.rs lines 502-509: collect the distinct piece ids of the window in
row-major first-occurrence order (`acc` is the growing `pieces_in_region`). -/
def dedup_ids (acc : List Nat) : List Cell → List Nat
  | [] => acc
  | c :: cs =>
    if c.piece_id ∈ acc then dedup_ids acc cs
    else dedup_ids (acc ++ [c.piece_id]) cs

def region_ids (orig : List (List Cell)) : List Nat :=
  dedup_ids [] orig.flatten

/-- main.rs lines 510-530: every cell anywhere on the board carrying one of
the window's piece ids must lie inside the window. -/
def candidate_valid (b : Board) (x y : Nat) (pids : List Nat) : Bool :=
  pids.all fun pid =>
    (List.range 20).all fun row =>
      (List.range 10).all fun col =>
        (boardGet b col row).all fun c =>
          if c.piece_id = pid then
            decide (x ≤ col ∧ col < x + 4 ∧ y ≤ row ∧ row < y + 4)
          else true

/-- main.rs lines 536-543: the kind of the first window cell (row-major)
carrying `pid`; the fallback is unreachable because `pid` always occurs. -/
def first_kind_of (pid : Nat) : List Cell → TetrominoType
  | [] => .I
  | c :: cs => if c.piece_id = pid then c.t_type else first_kind_of pid cs

/-- main.rs lines 534-544: one representative kind per distinct piece id. -/
def region_types (orig : List (List Cell)) (pids : List Nat) :
    List TetrominoType :=
  pids.map fun pid => first_kind_of pid orig.flatten

/-- main.rs line 545: `types.iter().all(|&t| t == types[0])` (the list is
never empty when evaluated). -/
def all_same_types (ts : List TetrominoType) : Bool :=
  ts.all fun t => t = ts.headD .I

/-- The effect that one 4×4 window of `check_for_4x4_squares` would register:
`some e` iff the window qualifies (main.rs lines 479-557, one `(x, y)`
iteration, before the duplicate-origin check). -/
def window_effect (b : Board) (x y : Nat) : Option SquareEffect :=
  if window_ok b x y then
    if candidate_valid b x y (region_ids (orig_of b x y)) then
      some { x := x, y := y,
             is_gold := all_same_types
               (region_types (orig_of b x y) (region_ids (orig_of b x y))),
             timer := 0.3, flash_on := true, blinks_remaining := 6,
             original := orig_of b x y }
    else none
  else none

/-- main.rs lines 546-557: skip the window if an active effect is already
anchored at the same origin, else push the new effect. -/
def scan_step (b : Board) (acc : List SquareEffect) (w : Nat × Nat) :
    List SquareEffect :=
  match window_effect b w.1 w.2 with
  | none => acc
  | some e =>
    if ∃ f ∈ acc, f.x = w.1 ∧ f.y = w.2 then acc else acc ++ [e]

/-- main.rs lines 477-478: `for y in 0..17 { for x in 0..7 }`. -/
def window_list : List (Nat × Nat) :=
  (List.range (20 - 3)).flatMap fun y =>
    (List.range (10 - 3)).map fun x => (x, y)

/-- main.rs lines 476-560: `GameState::check_for_4x4_squares` — scans every
window and accumulates new `SquareEffect`s; the board itself is not written
by this function. -/
def check_for_4x4_squares (s : GameState) : GameState :=
  { s with active_squares :=
      window_list.foldl (scan_step s.board) s.active_squares }

/-- main.rs lines 390-417: `GameState::lock_tetromino` — merge, then either
start the delayed clear (0.27s) or spawn immediately and run the detector. -/
def lock_tetromino (rng : TetrominoType) (s : GameState) : GameState :=
  if (full_rows (lock_merge s).board).isEmpty then
    check_for_4x4_squares (spawn_new_tetromino rng (lock_merge s))
  else { lock_merge s with
           clearing_lines := full_rows (lock_merge s).board,
           line_clear_timer := 0.27 }

/-- main.rs lines 421-424: keep the rows whose index is not in
`clearing_lines`; `n` is the running `enumerate()` index. -/
def kept_rows_from (cl : List Nat) (n : Nat) : Board → Board
  | [] => []
  | r :: rs =>
    if n ∈ cl then kept_rows_from cl (n + 1) rs
    else r :: kept_rows_from cl (n + 1) rs

/-- main.rs lines 420-430: the collapse portion of `clear_lines_delayed` —
drop the clearing rows, pad with empty rows at the top (the Rust
`while new_board.len() < GRID_HEIGHT { insert(0, empty) }`), bump
`lines_cleared`, reset `clearing_lines`. -/
def cleared_state (s : GameState) : GameState :=
  { s with
    board :=
      List.replicate (20 - (kept_rows_from s.clearing_lines 0 s.board).length)
        emptyRow ++ kept_rows_from s.clearing_lines 0 s.board,
    lines_cleared := s.lines_cleared + s.clearing_lines.length,
    clearing_lines := [] }

/-- main.rs lines 419-443: `GameState::clear_lines_delayed` — collapse, then
either flag game over (next piece collides at spawn) or spawn and re-run the
detector. -/
def clear_lines_delayed (rng : TetrominoType) (s : GameState) : GameState :=
  match (cleared_state s).next_tetromino with
  | some nt =>
    if check_collision (cleared_state s).board nt.shape nt.pos then
      { cleared_state s with game_over := true, started := false }
    else check_for_4x4_squares (spawn_new_tetromino rng (cleared_state s))
  | none => check_for_4x4_squares (spawn_new_tetromino rng (cleared_state s))

/-- main.rs lines 564-571 (inside `update_square_effects`): one effect's
timer decrement, with reset / flash toggle / blink decrement on expiry. -/
def tick_effect (dt : ℚ) (e : SquareEffect) : SquareEffect :=
  let t := e.timer - dt
  if t ≤ 0 then
    let flash := !e.flash_on
    { e with timer := 0.3, flash_on := flash,
             blinks_remaining :=
               if !flash ∧ 0 < e.blinks_remaining then e.blinks_remaining - 1
               else e.blinks_remaining }
  else { e with timer := t }

/-- `for dy in 0..4 { for dx in 0..4 }` as `(dx, dy)` pairs. -/
def window_offsets : List (Nat × Nat) :=
  (List.range 4).flatMap fun dy => (List.range 4).map fun dx => (dx, dy)

/-- The solid bonus filler cell `(bonus color, bonus kind, id 0)` written
when an effect fires (main.rs line 581). -/
def fill_cell (is_gold : Bool) : Cell :=
  ⟨(if is_gold then .gold else .silver),
   (if is_gold then .BonusGold else .BonusSilver), 0⟩

/-- main.rs lines 578-583: the write of one region cell. -/
def fire_write (e : SquareEffect) (b : Board) (d : Nat × Nat) : Board :=
  boardSet b (e.x + d.1) (e.y + d.2) (some (fill_cell e.is_gold))

/-- main.rs lines 578-583: overwrite the 16 region cells with the solid
bonus filler. -/
def apply_effect_fire (e : SquareEffect) (b : Board) : Board :=
  window_offsets.foldl (fire_write e) b

/-- main.rs lines 563-589: the `retain_mut` loop over the active effects,
threading the board and score accumulators in iteration order; a fired
effect (blink budget exhausted) writes its region, scores, and is dropped,
any other effect is kept (in order) with its ticked fields. -/
def effects_step (dt : ℚ) :
    List SquareEffect → Board → Nat → Board × Nat × List SquareEffect
  | [], b, sc => (b, sc, [])
  | e0 :: rest, b, sc =>
    if (tick_effect dt e0).blinks_remaining = 0 then
      effects_step dt rest (apply_effect_fire (tick_effect dt e0) b)
        (sc + (if (tick_effect dt e0).is_gold then 500 else 200))
    else
      let r := effects_step dt rest b sc
      (r.1, r.2.1, tick_effect dt e0 :: r.2.2)

/-- main.rs lines 562-590: `GameState::update_square_effects`. -/
def update_square_effects (dt : ℚ) (s : GameState) : GameState :=
  { s with board := (effects_step dt s.active_squares s.board s.score).1,
           score := (effects_step dt s.active_squares s.board s.score).2.1,
           active_squares :=
             (effects_step dt s.active_squares s.board s.score).2.2 }

/-- main.rs lines 709-714: `GameState::move_tetromino` — shift the active
piece if one exists; a no-op otherwise. -/
def move_tetromino (d : Int × Int) (s : GameState) : GameState :=
  match s.tetromino with
  | none => s
  | some t =>
    { s with tetromino := some { t with pos := (t.pos.1 + d.1, t.pos.2 + d.2) } }

/-- main.rs lines 716-721: `GameState::set_tetromino_shape`. -/
def set_tetromino_shape (shape : List (Int × Int)) (s : GameState) :
    GameState :=
  match s.tetromino with
  | none => s
  | some t => { s with tetromino := some { t with shape := shape } }

/-- The input snapshot consumed by one `process_input` call: for each key
used there, whether it was pressed this tick and (for Left/Right/Down)
whether it is held. -/
structure Input where
  up_pressed : Bool
  left_pressed : Bool
  left_down : Bool
  right_pressed : Bool
  right_down : Bool
  z_pressed : Bool
  x_pressed : Bool
  down_down : Bool
  c_pressed : Bool
deriving DecidableEq

/-- The all-keys-idle input snapshot. -/
def Input.idle : Input :=
  { up_pressed := false, left_pressed := false, left_down := false,
    right_pressed := false, right_down := false, z_pressed := false,
    x_pressed := false, down_down := false, c_pressed := false }

/-- main.rs lines 595-607: the hard-drop loop — step the active piece down
while the cell below is free.  `fuel` bounds the unbounded Rust loop. -/
def hard_drop_loop : Nat → GameState → GameState
  | 0, s => s
  | fuel + 1, s =>
    match s.tetromino with
    | none => s
    | some t =>
      if check_collision s.board t.shape (t.pos.1, t.pos.2 + 1) then s
      else hard_drop_loop fuel (move_tetromino (0, 1) s)

/-- main.rs lines 614-633: the Left block (press / auto-repeat / release).
`curr` is the local copy taken at line 613 — collision checks use it even
after earlier blocks moved the piece. -/
def left_block (inp : Input) (delta : ℚ) (curr : Tetromino) (s : GameState) :
    GameState :=
  if inp.left_pressed then
    if !check_collision s.board curr.shape (curr.pos.1 - 1, curr.pos.2) then
      { move_tetromino (-1, 0) s with left_timer := 0.2 }
    else s
  else if inp.left_down then
    let s1 := { s with left_timer := s.left_timer - delta }
    if s1.left_timer ≤ 0 then
      if !check_collision s1.board curr.shape (curr.pos.1 - 1, curr.pos.2) then
        { move_tetromino (-1, 0) s1 with left_timer := 0.1 }
      else s1
    else s1
  else { s with left_timer := 0 }

/-- main.rs lines 635-652: the Right block. -/
def right_block (inp : Input) (delta : ℚ) (curr : Tetromino) (s : GameState) :
    GameState :=
  if inp.right_pressed then
    if !check_collision s.board curr.shape (curr.pos.1 + 1, curr.pos.2) then
      { move_tetromino (1, 0) s with right_timer := 0.2 }
    else s
  else if inp.right_down then
    let s1 := { s with right_timer := s.right_timer - delta }
    if s1.right_timer ≤ 0 then
      if !check_collision s1.board curr.shape (curr.pos.1 + 1, curr.pos.2) then
        { move_tetromino (1, 0) s1 with right_timer := 0.1 }
      else s1
    else s1
  else { s with right_timer := 0 }

/-- main.rs lines 654-661: counter-clockwise rotation on Z. -/
def z_block (inp : Input) (curr : Tetromino) (s : GameState) : GameState :=
  if inp.z_pressed then
    let ns := rotate_shape curr.shape curr.t_type false
    if !check_collision s.board ns curr.pos then set_tetromino_shape ns s
    else s
  else s

/-- main.rs lines 662-669: clockwise rotation on X (still from `curr.shape`,
the pre-input shape). -/
def x_block (inp : Input) (curr : Tetromino) (s : GameState) : GameState :=
  if inp.x_pressed then
    let ns := rotate_shape curr.shape curr.t_type true
    if !check_collision s.board ns curr.pos then set_tetromino_shape ns s
    else s
  else s

/-- main.rs lines 671-678: soft drop — reset the gravity accumulator, then
step down if free. -/
def down_block (inp : Input) (curr : Tetromino) (s : GameState) : GameState :=
  if inp.down_down then
    let s1 := { s with fall_timer := 0 }
    if !check_collision s1.board curr.shape (curr.pos.1, curr.pos.2 + 1) then
      move_tetromino (0, 1) s1
    else s1
  else s

/-- main.rs lines 688-706: the hold-swap block.  Note the source sets
`hold_used = true` before checking whether the retrieved piece fits, and
normalises the retrieved piece's shape and position in place before the
collision test, so a rejected swap still leaves both changes behind. -/
def hold_block (inp : Input) (rng : TetrominoType) (curr : Tetromino)
    (s : GameState) : GameState :=
  if inp.c_pressed ∧ s.hold_used = false then
    let s1 := { s with hold_used := true }
    let current_piece := { curr with shape := shapeOf curr.t_type }
    match s1.hold_tetromino with
    | some hp0 =>
      let hp := { hp0 with shape := shapeOf hp0.t_type, pos := (3, 0) }
      if check_collision s1.board hp.shape hp.pos then
        { s1 with hold_tetromino := some hp }
      else
        { s1 with hold_tetromino := some current_piece, tetromino := some hp }
    | none =>
      spawn_new_tetromino rng
        { s1 with hold_tetromino := some current_piece, tetromino := none }
  else s

/-- main.rs lines 592-707: `GameState::process_input`.  Returns `none` when
the Rust code would panic (the `unwrap()` at line 613 with no active piece).
The hard-drop branch locks and returns early as in the source. -/
def process_input (fuel : Nat) (inp : Input) (rng : TetrominoType)
    (delta : ℚ) (s : GameState) : Option GameState :=
  if inp.up_pressed then
    some (lock_tetromino rng (hard_drop_loop fuel s))
  else
    match s.tetromino with
    | none => none
    | some curr =>
      some (hold_block inp rng curr
             (down_block inp curr
               (x_block inp curr
                 (z_block inp curr
                   (right_block inp delta curr
                     (left_block inp delta curr s))))))

/-! ## Basic board lemmas -/

theorem boardGet_eq (b : Board) (x y : Nat) :
    boardGet b x y = ((b[y]?.getD []).getD x none : Option Cell) := by
  simp [boardGet, List.getD_eq_getElem?_getD]

theorem length_boardSet (b : Board) (x y : Nat) (v : Option Cell) :
    (boardSet b x y v).length = b.length := by
  simp [boardSet]

theorem getD_set_self {α : Type _} (l : List α) (i : Nat) (a d : α)
    (h : i < l.length) : (l.set i a).getD i d = a := by
  simp [List.getD_eq_getElem?_getD, List.getElem?_set, h]

theorem getD_set_ne {α : Type _} (l : List α) (i j : Nat) (a d : α)
    (h : i ≠ j) : (l.set i a).getD j d = l.getD j d := by
  simp [List.getD_eq_getElem?_getD, List.getElem?_set, h]

theorem boardWF_boardSet (b : Board) (x y : Nat) (v : Option Cell)
    (hwf : BoardWF b) : BoardWF (boardSet b x y v) := by
  obtain ⟨hl, hr⟩ := hwf
  constructor
  · simp [boardSet, hl]
  · intro r hmem
    rcases Nat.lt_or_ge y b.length with hy | hy
    · rcases List.mem_or_eq_of_mem_set hmem with h | h
      · exact hr r h
      · subst h
        rw [List.length_set, List.getD_eq_getElem b [] hy]
        exact hr _ (List.getElem_mem hy)
    · rw [boardSet, List.set_eq_of_length_le hy] at hmem
      exact hr r hmem

theorem boardGet_boardSet (b : Board) (x y : Nat) (v : Option Cell)
    (hy : y < b.length) (hx : x < (b.getD y []).length) (x' y' : Nat) :
    boardGet (boardSet b x y v) x' y' =
      if x = x' ∧ y = y' then v else boardGet b x' y' := by
  unfold boardGet boardSet
  by_cases hyy : y = y'
  · subst hyy
    rw [getD_set_self _ _ _ _ hy]
    by_cases hxx : x = x'
    · subst hxx
      rw [getD_set_self _ _ _ _ hx, if_pos ⟨rfl, rfl⟩]
    · rw [getD_set_ne _ _ _ _ _ hxx, if_neg (by simp [hxx])]
  · rw [getD_set_ne _ _ _ _ _ hyy, if_neg (by simp [hyy])]

/-! ## C1: collision soundness -/

/-- C1.  `check_collision` returns `true` iff at least one resulting cell
`position + offset` falls outside the grid `[0,10) × [0,20)` or lands on an
occupied board cell, and `false` otherwise.  (It is a pure query of type
`Board → shape → pos → Bool`, so it cannot mutate the game state.) -/
theorem c1_check_collision_iff (b : Board) (shape : List (Int × Int))
    (pos : Int × Int) :
    check_collision b shape pos = true ↔
      ∃ d ∈ shape,
        (pos.1 + d.1 < 0 ∨ 10 ≤ pos.1 + d.1 ∨
         pos.2 + d.2 < 0 ∨ 20 ≤ pos.2 + d.2) ∨
        ∃ c, boardGet b (pos.1 + d.1).toNat (pos.2 + d.2).toNat = some c := by
  simp only [check_collision, List.any_eq_true]
  constructor
  · rintro ⟨d, hd, h⟩
    refine ⟨d, hd, ?_⟩
    split at h
    · exact Or.inl (by assumption)
    · exact Or.inr (Option.isSome_iff_exists.mp h)
  · rintro ⟨d, hd, h⟩
    refine ⟨d, hd, ?_⟩
    rcases h with h | h
    · rw [if_pos h]
    · split
      · rfl
      · exact Option.isSome_iff_exists.mpr h

/-! ## C7: the O piece is **not** rotation-invariant -/

/-- C7.  The source's rotation-offset table says "O (doesn't rotate)", but
`rotate_shape` with the zero pivot maps the O shape `{(0,0),(1,0),(0,1),(1,1)}`
to `{(0,0),(0,-1),(1,0),(1,-1)}` (clockwise) resp.
`{(0,0),(0,1),(-1,0),(-1,1)}` (counter-clockwise): the cell `(1,1)` of the
input is covered by neither output, so the occupied cell set changes in both
directions, contradicting the claim (and the source's own comment). -/
theorem c7_o_rotation_changes_cells :
    rotate_shape (shapeOf .O) .O true = [(0,0),(0,-1),(1,0),(1,-1)] ∧
    rotate_shape (shapeOf .O) .O false = [(0,0),(0,1),(-1,0),(-1,1)] ∧
    ((1,1) : Int × Int) ∈ shapeOf .O ∧
    ((1,1) : Int × Int) ∉ rotate_shape (shapeOf .O) .O true ∧
    ((1,1) : Int × Int) ∉ rotate_shape (shapeOf .O) .O false := by
  decide

/-! ## C2: lock conservation -/

theorem row_length_of_wf {b : Board} (hwf : BoardWF b) {y : Nat} (hy : y < 20) :
    (b.getD y []).length = 10 := by
  obtain ⟨hl, hr⟩ := hwf
  rw [List.getD_eq_getElem b [] (hl ▸ hy)]
  exact hr _ (List.getElem_mem _)

/-- Behaviour of the merge-loop fold: every written cell holds the fresh
value, every other cell is untouched, and well-formedness is preserved. -/
theorem lock_write_foldl_spec (t : Tetromino) (id : Nat) :
    ∀ (l : List (Int × Int)) (b : Board), BoardWF b →
    (∀ d ∈ l, 0 ≤ t.pos.1 + d.1 ∧ t.pos.1 + d.1 < 10 ∧
              0 ≤ t.pos.2 + d.2 ∧ t.pos.2 + d.2 < 20) →
    BoardWF (l.foldl (lock_write t id) b) ∧
    (∀ d ∈ l,
      boardGet (l.foldl (lock_write t id) b)
        (t.pos.1 + d.1).toNat (t.pos.2 + d.2).toNat
        = some ⟨t.color, t.t_type, id⟩) ∧
    (∀ x y : Nat,
      (∀ d ∈ l, ¬((t.pos.1 + d.1).toNat = x ∧ (t.pos.2 + d.2).toNat = y)) →
      boardGet (l.foldl (lock_write t id) b) x y = boardGet b x y) := by
  intro l
  induction l with
  | nil => exact fun b hwf _ => ⟨hwf, by simp, fun _ _ _ => rfl⟩
  | cons d l ih =>
    intro b hwf hin
    have hd := hin d (by simp)
    have hstep : lock_write t id b d =
        boardSet b (t.pos.1 + d.1).toNat (t.pos.2 + d.2).toNat
          (some ⟨t.color, t.t_type, id⟩) := by
      rw [lock_write, if_pos hd]
    have hy20 : (t.pos.2 + d.2).toNat < 20 := by
      rw [Int.toNat_lt hd.2.2.1]; exact_mod_cast hd.2.2.2
    have hx10 : (t.pos.1 + d.1).toNat < 10 := by
      rw [Int.toNat_lt hd.1]; exact_mod_cast hd.2.1
    have hwf1 : BoardWF (lock_write t id b d) := by
      rw [hstep]; exact boardWF_boardSet _ _ _ _ hwf
    have hget1 : ∀ x y : Nat,
        boardGet (lock_write t id b d) x y =
          if (t.pos.1 + d.1).toNat = x ∧ (t.pos.2 + d.2).toNat = y then
            some ⟨t.color, t.t_type, id⟩
          else boardGet b x y := by
      intro x y
      rw [hstep]
      exact boardGet_boardSet _ _ _ _ (hwf.1 ▸ hy20)
        ((row_length_of_wf hwf hy20).symm ▸ hx10) x y
    obtain ⟨ihwf, ihset, ihkeep⟩ :=
      ih (lock_write t id b d) hwf1
        (fun d' hd' => hin d' (List.mem_cons_of_mem _ hd'))
    refine ⟨by simpa using ihwf, ?_, ?_⟩
    · intro d' hd'
      rcases List.mem_cons.mp hd' with rfl | hmem
      · by_cases hc : ∃ d'' ∈ l,
          (t.pos.1 + d''.1).toNat = (t.pos.1 + d'.1).toNat ∧
          (t.pos.2 + d''.2).toNat = (t.pos.2 + d'.2).toNat
        · obtain ⟨d'', hmem'', hxeq, hyeq⟩ := hc
          have := ihset d'' hmem''
          rw [hxeq, hyeq] at this
          simpa using this
        · push_neg at hc
          have hkeep := ihkeep (t.pos.1 + d'.1).toNat (t.pos.2 + d'.2).toNat
            (by intro d'' hmem'' hco; exact hc d'' hmem'' hco.1 hco.2)
          have hone := hget1 (t.pos.1 + d'.1).toNat (t.pos.2 + d'.2).toNat
          rw [if_pos ⟨rfl, rfl⟩] at hone
          simpa [hone] using hkeep
      · simpa using ihset d' hmem
    · intro x y hnc
      have h1 := ihkeep x y (fun d' hd' => hnc d' (List.mem_cons_of_mem _ hd'))
      have h2 := hget1 x y
      rw [if_neg (hnc d (by simp))] at h2
      simpa [h2] using h1

theorem check_for_4x4_squares_board (s : GameState) :
    (check_for_4x4_squares s).board = s.board := rfl

theorem spawn_new_tetromino_board (rng : TetrominoType) (s : GameState) :
    (spawn_new_tetromino rng s).board = s.board := by
  unfold spawn_new_tetromino
  split
  · rfl
  · split
    · rfl
    · split <;> rfl

theorem lock_tetromino_board (rng : TetrominoType) (s : GameState) :
    (lock_tetromino rng s).board = (lock_merge s).board := by
  unfold lock_tetromino
  split
  · rw [check_for_4x4_squares_board, spawn_new_tetromino_board]
  · rfl

/-- C2.  Locking an active piece whose cells are all in bounds makes exactly
those cells occupied, all four tagged with the pre-lock `next_piece_id`
(which the merge step then increments by one); every other board cell is
unchanged by the merge step, and the rest of `lock_tetromino` never writes
the board again. -/
theorem c2_lock_conservation (s : GameState) (t : Tetromino)
    (ht : s.tetromino = some t)
    (hwf : BoardWF s.board)
    (hin : ∀ d ∈ t.shape, 0 ≤ t.pos.1 + d.1 ∧ t.pos.1 + d.1 < 10 ∧
             0 ≤ t.pos.2 + d.2 ∧ t.pos.2 + d.2 < 20) :
    (∀ d ∈ t.shape,
       boardGet (lock_merge s).board
         (t.pos.1 + d.1).toNat (t.pos.2 + d.2).toNat
         = some ⟨t.color, t.t_type, s.next_piece_id⟩) ∧
    (∀ x y : Nat,
       (∀ d ∈ t.shape,
          ¬((t.pos.1 + d.1).toNat = x ∧ (t.pos.2 + d.2).toNat = y)) →
       boardGet (lock_merge s).board x y = boardGet s.board x y) ∧
    (lock_merge s).next_piece_id = s.next_piece_id + 1 ∧
    (∀ rng, (lock_tetromino rng s).board = (lock_merge s).board) := by
  have hb : (lock_merge s).board =
      t.shape.foldl (lock_write t s.next_piece_id) s.board := by
    unfold lock_merge; rw [ht]
  have hid : (lock_merge s).next_piece_id = s.next_piece_id + 1 := by
    unfold lock_merge; rw [ht]
  obtain ⟨_, hset, hkeep⟩ :=
    lock_write_foldl_spec t s.next_piece_id t.shape s.board hwf hin
  exact ⟨fun d hd => by rw [hb]; exact hset d hd,
         fun x y h => by rw [hb]; exact hkeep x y h,
         hid,
         fun rng => lock_tetromino_board rng s⟩

/-- Closed instance of C2: an O piece at position `(3, 17)` on the empty
board, locked; all hypotheses discharged by evaluation. -/
theorem c2_lock_conservation_witness :
    (∀ d ∈ (Tetromino.new .O).shape,
       boardGet (lock_merge { GameState.new with
           tetromino := some { Tetromino.new .O with pos := (3, 17) } }).board
         ((3 : Int) + d.1).toNat ((17 : Int) + d.2).toNat
         = some ⟨.yellow, .O, 1⟩) ∧
    (∀ x y : Nat,
       (∀ d ∈ (Tetromino.new .O).shape,
          ¬(((3 : Int) + d.1).toNat = x ∧ ((17 : Int) + d.2).toNat = y)) →
       boardGet (lock_merge { GameState.new with
           tetromino := some { Tetromino.new .O with pos := (3, 17) } }).board
           x y
         = boardGet GameState.new.board x y) ∧
    (lock_merge { GameState.new with
        tetromino := some { Tetromino.new .O with pos := (3, 17) } }).next_piece_id = 2 ∧
    (∀ rng, (lock_tetromino rng { GameState.new with
        tetromino := some { Tetromino.new .O with pos := (3, 17) } }).board
      = (lock_merge { GameState.new with
          tetromino := some { Tetromino.new .O with pos := (3, 17) } }).board) :=
  c2_lock_conservation
    { GameState.new with
        tetromino := some { Tetromino.new .O with pos := (3, 17) } }
    { Tetromino.new .O with pos := (3, 17) }
    rfl (by decide) (by decide)

/-! ## C4: no bonus is scored at lock or clear time

The claimed pending-bonus accounting does not exist in the source:
`lock_tetromino` computes no per-row bonus and `clear_lines_delayed` adds
nothing to `score` — score only changes in `update_square_effects`. -/

theorem check_for_4x4_squares_score (s : GameState) :
    (check_for_4x4_squares s).score = s.score := rfl

theorem spawn_new_tetromino_score (rng : TetrominoType) (s : GameState) :
    (spawn_new_tetromino rng s).score = s.score := by
  unfold spawn_new_tetromino
  split
  · rfl
  · split
    · rfl
    · split <;> rfl

theorem lock_merge_score (s : GameState) :
    (lock_merge s).score = s.score := by
  unfold lock_merge
  split <;> rfl

/-- C4 (amended).  Neither locking nor the delayed clear touches the score:
there is no pending-bonus total anywhere in the pipeline. -/
theorem c4_no_bonus_at_lock_or_clear (rng : TetrominoType) (s : GameState) :
    (lock_tetromino rng s).score = s.score ∧
    (clear_lines_delayed rng s).score = s.score := by
  constructor
  · unfold lock_tetromino
    split
    · rw [check_for_4x4_squares_score, spawn_new_tetromino_score,
        lock_merge_score]
    · exact lock_merge_score s
  · unfold clear_lines_delayed
    split
    · split
      · rfl
      · rw [check_for_4x4_squares_score, spawn_new_tetromino_score]; rfl
    · rw [check_for_4x4_squares_score, spawn_new_tetromino_score]; rfl

/-- A board whose row 19 is full and contains a gold-bonus cell, all other
rows empty. -/
def c4board : Board :=
  List.replicate 19 emptyRow ++
    [some ⟨.gold, .BonusGold, 0⟩ :: List.replicate 9 (some ⟨.cyan, .I, 3⟩)]

/-- The state right before the clear delay elapses on `c4board`. -/
def c4state : GameState :=
  { GameState.new with board := c4board, clearing_lines := [19] }

/-- C4 (counterexample).  Row 19 is full and contains a gold-bonus cell, so
under the claim the elapsing clear delay would add a pending bonus of
`GOLD_POINTS = 500` to the score; the code leaves the score untouched. -/
theorem c4_counterexample :
    full_rows c4state.board = [19] ∧
    (c4state.board.getD 19 []).getD 0 none
      = some ⟨.gold, .BonusGold, 0⟩ ∧
    c4state.clearing_lines = [19] ∧
    c4state.score = 0 ∧
    (clear_lines_delayed .I c4state).score = 0 ∧
    (clear_lines_delayed .I c4state).score ≠ c4state.score + 500 := by
  decide

/-! ## C9: operating on an absent active piece -/

/-- C9 (amended).  `move_tetromino` on a state with no active piece is a
safe no-op, but `process_input` (unless the hard-drop key is pressed)
unwraps the active piece — main.rs line 613 — and panics when none exists
(modelled as `none`). -/
theorem c9_no_piece_behaviour :
    (∀ (d : Int × Int) (s : GameState), s.tetromino = none →
       move_tetromino d s = s) ∧
    (∀ (fuel : Nat) (inp : Input) (rng : TetrominoType) (delta : ℚ)
       (s : GameState), s.tetromino = none → inp.up_pressed = false →
       process_input fuel inp rng delta s = none) := by
  constructor
  · intro d s h
    unfold move_tetromino
    rw [h]
  · intro fuel inp rng delta s h hup
    unfold process_input
    rw [hup, if_neg (by simp), h]

/-- Closed instance of C9 (amended): the freshly constructed state has no
active piece; moving is a no-op and idle input processing panics. -/
theorem c9_no_piece_behaviour_witness :
    move_tetromino (1, 0) GameState.new = GameState.new ∧
    process_input 25 Input.idle .I 0 GameState.new = none :=
  ⟨c9_no_piece_behaviour.1 (1, 0) GameState.new rfl,
   c9_no_piece_behaviour.2 25 Input.idle .I 0 GameState.new rfl rfl⟩

/-- C9 (counterexample).  On a state with no active piece, `process_input`
with idle input does not "terminate normally leaving the state unchanged":
it reaches the `unwrap()` and panics (`none`), so it is not a no-op. -/
theorem c9_counterexample :
    GameState.new.tetromino = none ∧
    process_input 25 Input.idle .I 0 GameState.new = none ∧
    process_input 25 Input.idle .I 0 GameState.new ≠ some GameState.new := by
  decide

/-! ## C8: hold-swap -/

theorem left_block_idle (inp : Input) (delta : ℚ) (curr : Tetromino)
    (s : GameState) (h1 : inp.left_pressed = false)
    (h2 : inp.left_down = false) :
    left_block inp delta curr s = { s with left_timer := 0 } := by
  unfold left_block
  simp [h1, h2]

theorem right_block_idle (inp : Input) (delta : ℚ) (curr : Tetromino)
    (s : GameState) (h1 : inp.right_pressed = false)
    (h2 : inp.right_down = false) :
    right_block inp delta curr s = { s with right_timer := 0 } := by
  unfold right_block
  simp [h1, h2]

theorem z_block_idle (inp : Input) (curr : Tetromino) (s : GameState)
    (h : inp.z_pressed = false) : z_block inp curr s = s := by
  unfold z_block
  simp [h]

theorem x_block_idle (inp : Input) (curr : Tetromino) (s : GameState)
    (h : inp.x_pressed = false) : x_block inp curr s = s := by
  unfold x_block
  simp [h]

theorem down_block_idle (inp : Input) (curr : Tetromino) (s : GameState)
    (h : inp.down_down = false) : down_block inp curr s = s := by
  unfold down_block
  simp [h]

/-- C8 (amended).  With only the hold key pressed: (1) hold-swap is guarded
by `hold_used`, so it is usable at most once per spawned piece; (2) swapping
with an occupied hold slot resets the retrieved piece to the canonical spawn
shape and position, and if that position collides the swap is rejected — the
active piece and board are unchanged — *but* `hold_used` is still set to
`true` and the hold slot's piece keeps the normalised shape and spawn
position (so the attempt is not free of state change); (3) if it does not
collide, the pieces are exchanged, the retrieved piece placed at the
canonical spawn position. -/
theorem c8_hold_swap (fuel : Nat) (s : GameState) (curr hp : Tetromino)
    (inp : Input) (rng : TetrominoType) (delta : ℚ)
    (hup : inp.up_pressed = false)
    (hl : inp.left_pressed = false) (hld : inp.left_down = false)
    (hr : inp.right_pressed = false) (hrd : inp.right_down = false)
    (hz : inp.z_pressed = false) (hx : inp.x_pressed = false)
    (hdn : inp.down_down = false) (hc : inp.c_pressed = true)
    (ht : s.tetromino = some curr) :
    (s.hold_used = true →
       process_input fuel inp rng delta s =
         some { s with left_timer := 0, right_timer := 0 }) ∧
    (s.hold_used = false → s.hold_tetromino = some hp →
       check_collision s.board (shapeOf hp.t_type) (3, 0) = true →
       process_input fuel inp rng delta s =
         some { s with
                left_timer := 0, right_timer := 0, hold_used := true,
                hold_tetromino :=
                  some { hp with shape := shapeOf hp.t_type, pos := (3, 0) } }) ∧
    (s.hold_used = false → s.hold_tetromino = some hp →
       check_collision s.board (shapeOf hp.t_type) (3, 0) = false →
       process_input fuel inp rng delta s =
         some { s with
                left_timer := 0, right_timer := 0, hold_used := true,
                hold_tetromino :=
                  some { curr with shape := shapeOf curr.t_type },
                tetromino :=
                  some { hp with shape := shapeOf hp.t_type, pos := (3, 0) } }) := by
  have hpi : process_input fuel inp rng delta s =
      some (hold_block inp rng curr
        { s with left_timer := 0, right_timer := 0 }) := by
    unfold process_input
    rw [hup]
    simp only [Bool.false_eq_true, if_false, ht]
    rw [left_block_idle inp delta curr s hl hld,
        right_block_idle inp delta curr _ hr hrd,
        z_block_idle inp curr _ hz,
        x_block_idle inp curr _ hx,
        down_block_idle inp curr _ hdn]
    rw [ht]
  refine ⟨?_, ?_, ?_⟩
  · intro hu
    rw [hpi]
    unfold hold_block
    rw [if_neg (by simp [hu])]
  · intro hu hh hcol
    rw [hpi]
    unfold hold_block
    rw [if_pos (by simp [hc, hu])]
    simp only [hh, hcol]
    rw [if_pos trivial]
  · intro hu hh hcol
    rw [hpi]
    unfold hold_block
    rw [if_pos (by simp [hc, hu])]
    simp only [hh, hcol, Bool.false_eq_true, if_false]

/-- The input snapshot with only the hold key pressed. -/
def c8input : Input := { Input.idle with c_pressed := true }

/-- A state where the spawn cells of the held O piece are blocked: board has
a locked cell at `(3, 0)`, the active piece is a T at `(4, 10)`, the hold
slot holds an O whose stored position is `(5, 5)`. -/
def c8state : GameState :=
  { GameState.new with
    board := boardSet emptyBoard 3 0 (some ⟨.cyan, .I, 7⟩),
    tetromino := some { Tetromino.new .T with pos := (4, 10) },
    hold_tetromino := some { Tetromino.new .O with pos := (5, 5) },
    started := true }

/-- Closed instance of C8 (amended), rejection branch, at `c8state`. -/
theorem c8_hold_swap_witness :
    process_input 25 c8input .I 0 c8state =
      some { c8state with
             left_timer := 0, right_timer := 0, hold_used := true,
             hold_tetromino := some { Tetromino.new .O with pos := (3, 0) } } :=
  (c8_hold_swap 25 c8state { Tetromino.new .T with pos := (4, 10) }
      { Tetromino.new .O with pos := (5, 5) } c8input .I 0
      rfl rfl rfl rfl rfl rfl rfl rfl rfl rfl).2.1 rfl rfl (by decide)

/-- C8 (counterexample).  On the rejected swap the state *does* change:
`hold_used` flips to `true` and the held piece's position is normalised from
`(5, 5)` to the spawn position `(3, 0)`, so "no state change at all" is
false. -/
theorem c8_counterexample :
    c8state.hold_used = false ∧
    check_collision c8state.board (shapeOf .O) (3, 0) = true ∧
    (process_input 25 c8input .I 0 c8state).map GameState.hold_used
      = some true ∧
    (process_input 25 c8input .I 0 c8state).map GameState.hold_tetromino
      ≠ some c8state.hold_tetromino ∧
    process_input 25 c8input .I 0 c8state ≠ some c8state := by
  decide

/-! ## C10: square-effect ticking, firing and scoring -/

theorem fire_write_foldl_spec (e : SquareEffect) :
    ∀ (l : List (Nat × Nat)) (b : Board), BoardWF b →
    (∀ d ∈ l, e.x + d.1 < 10 ∧ e.y + d.2 < 20) →
    BoardWF (l.foldl (fire_write e) b) ∧
    (∀ d ∈ l,
      boardGet (l.foldl (fire_write e) b) (e.x + d.1) (e.y + d.2)
        = some (fill_cell e.is_gold)) ∧
    (∀ x y : Nat,
      (∀ d ∈ l, ¬(e.x + d.1 = x ∧ e.y + d.2 = y)) →
      boardGet (l.foldl (fire_write e) b) x y = boardGet b x y) := by
  intro l
  induction l with
  | nil => exact fun b hwf _ => ⟨hwf, by simp, fun _ _ _ => rfl⟩
  | cons d l ih =>
    intro b hwf hin
    have hd := hin d (by simp)
    have hwf1 : BoardWF (fire_write e b d) :=
      boardWF_boardSet _ _ _ _ hwf
    have hget1 : ∀ x y : Nat,
        boardGet (fire_write e b d) x y =
          if e.x + d.1 = x ∧ e.y + d.2 = y then some (fill_cell e.is_gold)
          else boardGet b x y := by
      intro x y
      exact boardGet_boardSet _ _ _ _ (hwf.1 ▸ hd.2)
        ((row_length_of_wf hwf hd.2).symm ▸ hd.1) x y
    obtain ⟨ihwf, ihset, ihkeep⟩ :=
      ih (fire_write e b d) hwf1
        (fun d' hd' => hin d' (List.mem_cons_of_mem _ hd'))
    refine ⟨by simpa using ihwf, ?_, ?_⟩
    · intro d' hd'
      rcases List.mem_cons.mp hd' with rfl | hmem
      · by_cases hc : ∃ d'' ∈ l,
          e.x + d''.1 = e.x + d'.1 ∧ e.y + d''.2 = e.y + d'.2
        · obtain ⟨d'', hmem'', hxeq, hyeq⟩ := hc
          have := ihset d'' hmem''
          rw [hxeq, hyeq] at this
          simpa using this
        · push_neg at hc
          have hkeep := ihkeep (e.x + d'.1) (e.y + d'.2)
            (by intro d'' hmem'' hco; exact hc d'' hmem'' hco.1 hco.2)
          have hone := hget1 (e.x + d'.1) (e.y + d'.2)
          rw [if_pos ⟨rfl, rfl⟩] at hone
          simpa [hone] using hkeep
      · simpa using ihset d' hmem
    · intro x y hnc
      have h1 := ihkeep x y (fun d' hd' => hnc d' (List.mem_cons_of_mem _ hd'))
      have h2 := hget1 x y
      rw [if_neg (hnc d (by simp))] at h2
      simpa [h2] using h1

theorem mem_window_offsets {dx dy : Nat} (hdx : dx < 4) (hdy : dy < 4) :
    (dx, dy) ∈ window_offsets := by
  simp only [window_offsets, List.mem_flatMap, List.mem_map, List.mem_range]
  exact ⟨dy, hdy, dx, hdx, rfl⟩

theorem window_offsets_bounds : ∀ d ∈ window_offsets, d.1 < 4 ∧ d.2 < 4 := by
  decide

theorem apply_effect_fire_spec (e : SquareEffect) (b : Board)
    (hwf : BoardWF b) (hx : e.x + 4 ≤ 10) (hy : e.y + 4 ≤ 20) :
    BoardWF (apply_effect_fire e b) ∧
    (∀ dx dy : Nat, dx < 4 → dy < 4 →
       boardGet (apply_effect_fire e b) (e.x + dx) (e.y + dy)
         = some (fill_cell e.is_gold)) ∧
    (∀ x y : Nat, ¬(e.x ≤ x ∧ x < e.x + 4 ∧ e.y ≤ y ∧ y < e.y + 4) →
       boardGet (apply_effect_fire e b) x y = boardGet b x y) := by
  have hinb : ∀ d ∈ window_offsets, e.x + d.1 < 10 ∧ e.y + d.2 < 20 := by
    intro d hd
    obtain ⟨h1, h2⟩ := window_offsets_bounds d hd
    omega
  obtain ⟨hwf', hset, hkeep⟩ :=
    fire_write_foldl_spec e window_offsets b hwf hinb
  unfold apply_effect_fire
  refine ⟨hwf', ?_, ?_⟩
  · intro dx dy hdx hdy
    exact hset (dx, dy) (mem_window_offsets hdx hdy)
  · intro x y hout
    refine hkeep x y ?_
    intro d hd hco
    obtain ⟨h1, h2⟩ := window_offsets_bounds d hd
    omega

theorem tick_effect_preserves (dt : ℚ) (e : SquareEffect) :
    (tick_effect dt e).x = e.x ∧ (tick_effect dt e).y = e.y ∧
    (tick_effect dt e).is_gold = e.is_gold ∧
    (tick_effect dt e).original = e.original := by
  unfold tick_effect
  by_cases h : e.timer - dt ≤ 0 <;> simp [h]

/-- C10.  For a state with a single active `SquareEffect`: the tick
decrements the phase timer by `dt`; on expiry the timer resets to `0.3` and
the flash flag toggles, the blink count dropping by one exactly on an
off-toggle (i.e. when the flash flag was on) while positive.  If the blink
count has reached 0 after this, the 16 region cells are overwritten with the
solid bonus filler carrying piece-id 0 (the rest of the board untouched),
the score grows by exactly 500 (gold) or 200 (silver) — once, since the
effect is removed from the active list; otherwise the updated effect is
retained and board and score are unchanged. -/
theorem c10_square_effect_update (s : GameState) (e : SquareEffect) (dt : ℚ)
    (hsq : s.active_squares = [e])
    (hwf : BoardWF s.board)
    (hx : e.x + 4 ≤ 10) (hy : e.y + 4 ≤ 20) :
    (0 < e.timer - dt →
       (tick_effect dt e).timer = e.timer - dt ∧
       (tick_effect dt e).flash_on = e.flash_on ∧
       (tick_effect dt e).blinks_remaining = e.blinks_remaining) ∧
    (e.timer - dt ≤ 0 →
       (tick_effect dt e).timer = 0.3 ∧
       (tick_effect dt e).flash_on = !e.flash_on ∧
       ((e.flash_on = true ∧ 0 < e.blinks_remaining →
           (tick_effect dt e).blinks_remaining = e.blinks_remaining - 1) ∧
        (e.flash_on = false ∨ e.blinks_remaining = 0 →
           (tick_effect dt e).blinks_remaining = e.blinks_remaining))) ∧
    ((tick_effect dt e).blinks_remaining = 0 →
       (update_square_effects dt s).active_squares = [] ∧
       (update_square_effects dt s).score =
         s.score + (if e.is_gold then 500 else 200) ∧
       (∀ dx dy : Nat, dx < 4 → dy < 4 →
          boardGet (update_square_effects dt s).board (e.x + dx) (e.y + dy)
            = some (fill_cell e.is_gold)) ∧
       (∀ x y : Nat,
          ¬(e.x ≤ x ∧ x < e.x + 4 ∧ e.y ≤ y ∧ y < e.y + 4) →
          boardGet (update_square_effects dt s).board x y
            = boardGet s.board x y)) ∧
    ((tick_effect dt e).blinks_remaining ≠ 0 →
       (update_square_effects dt s).active_squares = [tick_effect dt e] ∧
       (update_square_effects dt s).score = s.score ∧
       (update_square_effects dt s).board = s.board) := by
  obtain ⟨hex, hey, heg, _⟩ := tick_effect_preserves dt e
  refine ⟨?_, ?_, ?_, ?_⟩
  · intro h
    unfold tick_effect
    rw [if_neg (by simpa using not_le_of_lt (by linarith : (0:ℚ) < e.timer - dt))]
    exact ⟨rfl, rfl, rfl⟩
  · intro h
    unfold tick_effect
    rw [if_pos (by simpa using h)]
    refine ⟨rfl, rfl, ?_, ?_⟩
    · rintro ⟨hf, hb⟩
      simp [hf, hb]
    · rintro (hf | hb)
      · simp [hf]
      · simp [hb]
  · intro h0
    have hu : update_square_effects dt s =
        { s with board := apply_effect_fire (tick_effect dt e) s.board,
                 score := s.score +
                   (if (tick_effect dt e).is_gold then 500 else 200),
                 active_squares := [] } := by
      unfold update_square_effects
      rw [hsq]
      simp only [effects_step]
      rw [if_pos h0]
    have hb : (update_square_effects dt s).board =
        apply_effect_fire (tick_effect dt e) s.board := by rw [hu]
    have hsc : (update_square_effects dt s).score =
        s.score + (if (tick_effect dt e).is_gold then 500 else 200) := by
      rw [hu]
    have hac : (update_square_effects dt s).active_squares = [] := by rw [hu]
    obtain ⟨_, hset, hkeep⟩ :=
      apply_effect_fire_spec (tick_effect dt e) s.board hwf
        (by rw [hex]; exact hx) (by rw [hey]; exact hy)
    refine ⟨hac, by rw [hsc, heg], ?_, ?_⟩
    · intro dx dy hdx hdy
      have h2 := hset dx dy hdx hdy
      rw [hex, hey, heg] at h2
      rw [hb]
      exact h2
    · intro x y hout
      rw [hb]
      refine hkeep x y ?_
      rw [hex, hey]
      exact hout
  · intro h0
    have hu : update_square_effects dt s =
        { s with board := s.board, score := s.score,
                 active_squares := [tick_effect dt e] } := by
      unfold update_square_effects
      rw [hsq]
      simp only [effects_step]
      rw [if_neg h0]
    refine ⟨by rw [hu], by rw [hu], by rw [hu]⟩

/-- A single gold effect one blink from completion at origin `(0, 16)`. -/
def c10effect : SquareEffect :=
  { x := 0, y := 16, is_gold := true, timer := 0.3, flash_on := true,
    blinks_remaining := 1, original := [] }

def c10state : GameState := { GameState.new with active_squares := [c10effect] }

/-- Closed instance of C10: ticking `c10state` by `0.4` expires the phase
timer, toggles the flash off, exhausts the blink budget and fires. -/
theorem c10_square_effect_update_witness :
    (update_square_effects 0.4 c10state).active_squares = [] ∧
    (update_square_effects 0.4 c10state).score =
      c10state.score + (if c10effect.is_gold then 500 else 200) ∧
    (∀ dx dy : Nat, dx < 4 → dy < 4 →
       boardGet (update_square_effects 0.4 c10state).board
           (c10effect.x + dx) (c10effect.y + dy)
         = some (fill_cell c10effect.is_gold)) ∧
    (∀ x y : Nat,
       ¬(c10effect.x ≤ x ∧ x < c10effect.x + 4 ∧
         c10effect.y ≤ y ∧ y < c10effect.y + 4) →
       boardGet (update_square_effects 0.4 c10state).board x y
         = boardGet c10state.board x y) :=
  (c10_square_effect_update c10state c10effect 0.4 rfl (by decide)
    (by decide) (by decide)).2.2.1
    (by simp only [tick_effect, c10effect]; norm_num)

/-! ## C6: what the detector does on qualification -/

theorem window_effect_fields {b : Board} {x y : Nat} {e : SquareEffect}
    (h : window_effect b x y = some e) :
    e.x = x ∧ e.y = y ∧ e.timer = 0.3 ∧ e.flash_on = true ∧
    e.blinks_remaining = 6 := by
  unfold window_effect at h
  split at h
  · split at h
    · injection h with h
      subst h
      exact ⟨rfl, rfl, rfl, rfl, rfl⟩
    · exact absurd h (by simp)
  · exact absurd h (by simp)

/-- The scan loop only appends new effects, each carrying the registration
fields of main.rs lines 549-557, and never one whose origin is already
present in the accumulator it was checked against. -/
theorem scan_step_foldl_spec (b : Board) :
    ∀ (ws : List (Nat × Nat)) (acc : List SquareEffect),
    ∃ new, ws.foldl (scan_step b) acc = acc ++ new ∧
      ∀ e ∈ new, e.timer = 0.3 ∧ e.blinks_remaining = 6 ∧
        e.flash_on = true ∧ ∀ f ∈ acc, ¬(f.x = e.x ∧ f.y = e.y) := by
  intro ws
  induction ws with
  | nil => exact fun acc => ⟨[], by simp, by simp⟩
  | cons w ws ih =>
    intro acc
    rcases hwe : window_effect b w.1 w.2 with _ | e
    · obtain ⟨new, hfold, hprop⟩ := ih acc
      refine ⟨new, ?_, hprop⟩
      simpa [scan_step, hwe] using hfold
    · by_cases hdup : ∃ f ∈ acc, f.x = w.1 ∧ f.y = w.2
      · obtain ⟨new, hfold, hprop⟩ := ih acc
        refine ⟨new, ?_, hprop⟩
        have : scan_step b acc w = acc := by
          simp only [scan_step, hwe]
          rw [if_pos hdup]
        simpa [this] using hfold
      · obtain ⟨new, hfold, hprop⟩ := ih (acc ++ [e])
        have hse : scan_step b acc w = acc ++ [e] := by
          simp only [scan_step, hwe]
          rw [if_neg hdup]
        obtain ⟨hex, hey, het, hef, heb⟩ := window_effect_fields hwe
        refine ⟨e :: new, ?_, ?_⟩
        · calc List.foldl (scan_step b) acc (w :: ws)
              = List.foldl (scan_step b) (acc ++ [e]) ws := by
                rw [List.foldl_cons, hse]
            _ = (acc ++ [e]) ++ new := hfold
            _ = acc ++ (e :: new) := by simp
        · intro e' he'
          rcases List.mem_cons.mp he' with rfl | hmem
          · refine ⟨het, heb, hef, ?_⟩
            intro f hf hco
            exact hdup ⟨f, hf, by rw [hco.1, hex], by rw [hco.2, hey]⟩
          · obtain ⟨h1, h2, h3, h4⟩ := hprop e' hmem
            exact ⟨h1, h2, h3,
              fun f hf => h4 f (List.mem_append_left _ hf)⟩

/-- C6 (amended).  The detector never writes the board (cells are converted
only when the effect's blink budget expires, in `update_square_effects`);
on qualification it registers a `SquareEffect` with a 0.3 phase timer,
6 blink cycles, flash on, and it never registers an effect whose origin
already had an active effect. -/
theorem c6_detector_no_overwrite (s : GameState) :
    (check_for_4x4_squares s).board = s.board ∧
    (check_for_4x4_squares s).score = s.score ∧
    ∃ new, (check_for_4x4_squares s).active_squares =
        s.active_squares ++ new ∧
      ∀ e ∈ new, e.timer = 0.3 ∧ e.blinks_remaining = 6 ∧
        e.flash_on = true ∧
        ∀ f ∈ s.active_squares, ¬(f.x = e.x ∧ f.y = e.y) := by
  refine ⟨rfl, rfl, ?_⟩
  obtain ⟨new, hfold, hprop⟩ :=
    scan_step_foldl_spec s.board window_list s.active_squares
  exact ⟨new, hfold, hprop⟩

/-- A 4×4 gold square: four O pieces (ids 1-4) fully inside the window with
origin `(0, 16)`. -/
def c6row (p1 p2 : Nat) : Row :=
  [some ⟨.yellow, .O, p1⟩, some ⟨.yellow, .O, p1⟩,
   some ⟨.yellow, .O, p2⟩, some ⟨.yellow, .O, p2⟩] ++ List.replicate 6 none

def c6board : Board :=
  List.replicate 16 emptyRow ++
    [c6row 1 2, c6row 1 2, c6row 3 4, c6row 3 4]

def c6state : GameState := { GameState.new with board := c6board }

/-- C6 (counterexample).  The window at `(0, 16)` qualifies (a gold effect
with 6 blinks and timer 0.3 is registered), yet the board is *not*
overwritten at detection time: cell `(0, 16)` still holds the original O
cell of piece 1, not a bonus marker. -/
theorem c6_counterexample :
    (window_effect c6board 0 16).isSome = true ∧
    (check_for_4x4_squares c6state).active_squares.map
        (fun e => (e.x, e.y, e.is_gold, e.blinks_remaining))
      = [(0, 16, true, 6)] ∧
    (check_for_4x4_squares c6state).board = c6state.board ∧
    boardGet (check_for_4x4_squares c6state).board 0 16
      = some ⟨.yellow, .O, 1⟩ ∧
    (boardGet (check_for_4x4_squares c6state).board 0 16).map Cell.t_type
      ≠ some .BonusGold ∧
    (boardGet (check_for_4x4_squares c6state).board 0 16).map Cell.t_type
      ≠ some .BonusSilver := by
  decide

/-! ## C5: window qualification and gold/silver classification -/

/-- `c` is (the payload of) one of the 16 cells of the window with top-left
`(x, y)`. -/
def InWindowCell (b : Board) (x y : Nat) (c : Cell) : Prop :=
  ∃ dx dy : Nat, dx < 4 ∧ dy < 4 ∧ boardGet b (x + dx) (y + dy) = some c

/-- The claim's qualification condition: all 16 cells occupied, none a
bonus marker, and every piece id appearing in the window is entirely
contained in the window (over the whole board). -/
def SpecQualifies (b : Board) (x y : Nat) : Prop :=
  (∀ dx dy : Nat, dx < 4 → dy < 4 →
     ∃ c, boardGet b (x + dx) (y + dy) = some c ∧
       c.t_type ≠ .BonusGold ∧ c.t_type ≠ .BonusSilver) ∧
  (∀ c, InWindowCell b x y c →
     ∀ row col : Nat, row < 20 → col < 10 →
       ∀ c', boardGet b col row = some c' → c'.piece_id = c.piece_id →
         x ≤ col ∧ col < x + 4 ∧ y ≤ row ∧ row < y + 4)

theorem window_ok_iff (b : Board) (x y : Nat) :
    window_ok b x y = true ↔
      ∀ dx dy : Nat, dx < 4 → dy < 4 →
        ∃ c, boardGet b (x + dx) (y + dy) = some c ∧
          c.t_type ≠ .BonusGold ∧ c.t_type ≠ .BonusSilver := by
  unfold window_ok
  simp only [List.all_eq_true, List.mem_range]
  constructor
  · intro h dx dy hdx hdy
    have := h dy hdy dx hdx
    rcases hc : boardGet b (x + dx) (y + dy) with _ | c
    · rw [hc, Option.any_none] at this
      exact absurd this (by simp)
    · rw [hc, Option.any_some] at this
      simp only [Bool.not_eq_true', Bool.or_eq_false_iff, beq_eq_false_iff_ne]
        at this
      exact ⟨c, rfl, this.1, this.2⟩
  · intro h dy hdy dx hdx
    obtain ⟨c, hc, h1, h2⟩ := h dx dy hdx hdy
    rw [hc, Option.any_some]
    simp [h1, h2]

theorem dedup_ids_mem :
    ∀ (l : List Cell) (acc : List Nat) (p : Nat),
      p ∈ dedup_ids acc l ↔ p ∈ acc ∨ ∃ c ∈ l, c.piece_id = p := by
  intro l
  induction l with
  | nil => simp [dedup_ids]
  | cons c cs ih =>
    intro acc p
    unfold dedup_ids
    by_cases hmem : c.piece_id ∈ acc
    · rw [if_pos hmem, ih]
      constructor
      · rintro (h | h)
        · exact Or.inl h
        · exact Or.inr (by obtain ⟨c', h1, h2⟩ := h; exact ⟨c', by simp [h1], h2⟩)
      · rintro (h | ⟨c', hc', h2⟩)
        · exact Or.inl h
        · rcases List.mem_cons.mp hc' with rfl | hc'
          · exact Or.inl (h2 ▸ hmem)
          · exact Or.inr ⟨c', hc', h2⟩
    · rw [if_neg hmem, ih]
      constructor
      · rintro (h | h)
        · rcases List.mem_append.mp h with h | h
          · exact Or.inl h
          · simp only [List.mem_singleton] at h
            exact Or.inr ⟨c, by simp, h.symm⟩
        · obtain ⟨c', h1, h2⟩ := h
          exact Or.inr ⟨c', by simp [h1], h2⟩
      · rintro (h | ⟨c', hc', h2⟩)
        · exact Or.inl (List.mem_append_left _ h)
        · rcases List.mem_cons.mp hc' with rfl | hc'
          · exact Or.inl (List.mem_append_right _ (by simp [h2]))
          · exact Or.inr ⟨c', hc', h2⟩

theorem mem_orig_flatten (b : Board) (x y : Nat)
    (hok : window_ok b x y = true) (c : Cell) :
    c ∈ (orig_of b x y).flatten ↔ InWindowCell b x y c := by
  unfold orig_of
  rw [List.mem_flatten]
  constructor
  · rintro ⟨row, hrow, hc⟩
    simp only [List.mem_map, List.mem_range] at hrow
    obtain ⟨dy, hdy, rfl⟩ := hrow
    simp only [List.mem_map, List.mem_range] at hc
    obtain ⟨dx, hdx, rfl⟩ := hc
    obtain ⟨c', hc', _, _⟩ := (window_ok_iff b x y).mp hok dx dy hdx hdy
    exact ⟨dx, dy, hdx, hdy, by rw [hc']; rfl⟩
  · rintro ⟨dx, dy, hdx, hdy, hc⟩
    refine ⟨(List.range 4).map fun dx =>
        (boardGet b (x + dx) (y + dy)).getD ⟨.black, .I, 0⟩, ?_, ?_⟩
    · simp only [List.mem_map, List.mem_range]
      exact ⟨dy, hdy, rfl⟩
    · simp only [List.mem_map, List.mem_range]
      exact ⟨dx, hdx, by rw [hc]; rfl⟩

theorem candidate_valid_iff (b : Board) (x y : Nat) (pids : List Nat) :
    candidate_valid b x y pids = true ↔
      ∀ pid ∈ pids, ∀ row col : Nat, row < 20 → col < 10 →
        ∀ c', boardGet b col row = some c' → c'.piece_id = pid →
          x ≤ col ∧ col < x + 4 ∧ y ≤ row ∧ row < y + 4 := by
  unfold candidate_valid
  simp only [List.all_eq_true, List.mem_range]
  constructor
  · intro h pid hpid row col hrow hcol c' hc' hid
    have := h pid hpid row hrow col hcol
    rw [hc', Option.all_some, if_pos hid] at this
    exact of_decide_eq_true this
  · intro h pid hpid row hrow col hcol
    rcases hc : boardGet b col row with _ | c'
    · rw [Option.all_none]
    · rw [Option.all_some]
      by_cases hid : c'.piece_id = pid
      · rw [if_pos hid]
        exact decide_eq_true (h pid hpid row col hrow hcol c' hc hid)
      · rw [if_neg hid]

theorem first_kind_of_spec :
    ∀ (l : List Cell) (pid : Nat), (∃ c ∈ l, c.piece_id = pid) →
      ∃ c ∈ l, c.piece_id = pid ∧ first_kind_of pid l = c.t_type := by
  intro l
  induction l with
  | nil => rintro pid ⟨c, hc, _⟩; exact absurd hc (by simp)
  | cons c cs ih =>
    intro pid hex
    by_cases hid : c.piece_id = pid
    · exact ⟨c, by simp, hid, by unfold first_kind_of; rw [if_pos hid]⟩
    · obtain ⟨c', hc', hid'⟩ := hex
      rcases List.mem_cons.mp hc' with rfl | hc'
      · exact absurd hid' hid
      · obtain ⟨c'', hc'', hid'', hk⟩ := ih pid ⟨c', hc', hid'⟩
        exact ⟨c'', List.mem_cons_of_mem _ hc'', hid'',
          by unfold first_kind_of; rw [if_neg hid]; exact hk⟩

theorem all_same_types_iff (ts : List TetrominoType) :
    all_same_types ts = true ↔ ∀ t ∈ ts, t = ts.headD .I := by
  unfold all_same_types
  simp [List.all_eq_true]

/-- The classification core: over the window's 16 cells (as a flat list),
the one-representative-per-piece-id check `all_same_types` agrees with
"all cells have the same kind", provided cells sharing a piece id share a
kind. -/
theorem region_gold_iff (fl : List Cell) (hne : fl ≠ [])
    (hWT : ∀ c₁ ∈ fl, ∀ c₂ ∈ fl,
      c₁.piece_id = c₂.piece_id → c₁.t_type = c₂.t_type) :
    all_same_types ((dedup_ids [] fl).map fun pid => first_kind_of pid fl)
        = true ↔
      ∀ c₁ ∈ fl, ∀ c₂ ∈ fl, c₁.t_type = c₂.t_type := by
  have hmem : ∀ p : Nat, p ∈ dedup_ids [] fl ↔ ∃ c ∈ fl, c.piece_id = p := by
    intro p
    rw [dedup_ids_mem]
    simp
  have hcell : ∀ c ∈ fl, first_kind_of c.piece_id fl = c.t_type := by
    intro c hc
    obtain ⟨c', hc', hid', hk⟩ := first_kind_of_spec fl c.piece_id ⟨c, hc, rfl⟩
    rw [hk]
    exact hWT c' hc' c hc hid'
  rcases hp : dedup_ids [] fl with _ | ⟨p₀, ps⟩
  · obtain ⟨c₀, hc₀⟩ := List.exists_mem_of_ne_nil fl hne
    have := (hmem c₀.piece_id).mpr ⟨c₀, hc₀, rfl⟩
    rw [hp] at this
    exact absurd this (by simp)
  · obtain ⟨c₀, hc₀, hid₀⟩ := (hmem p₀).mp (by rw [hp]; simp)
    have hhead :
        (((p₀ :: ps).map fun pid => first_kind_of pid fl).headD .I)
          = c₀.t_type := by
      simp only [List.map_cons, List.headD_cons]
      rw [← hid₀]
      exact hcell c₀ hc₀
    rw [all_same_types_iff]
    constructor
    · intro hall c₁ hc₁ c₂ hc₂
      have h₁ : first_kind_of c₁.piece_id fl = c₀.t_type := by
        have hin : first_kind_of c₁.piece_id fl ∈
            ((p₀ :: ps).map fun pid => first_kind_of pid fl) := by
          refine List.mem_map.mpr ⟨c₁.piece_id, ?_, rfl⟩
          rw [← hp]
          exact (hmem c₁.piece_id).mpr ⟨c₁, hc₁, rfl⟩
        have := hall _ hin
        rw [this, hhead]
      have h₂ : first_kind_of c₂.piece_id fl = c₀.t_type := by
        have hin : first_kind_of c₂.piece_id fl ∈
            ((p₀ :: ps).map fun pid => first_kind_of pid fl) := by
          refine List.mem_map.mpr ⟨c₂.piece_id, ?_, rfl⟩
          rw [← hp]
          exact (hmem c₂.piece_id).mpr ⟨c₂, hc₂, rfl⟩
        have := hall _ hin
        rw [this, hhead]
      rw [← hcell c₁ hc₁, ← hcell c₂ hc₂, h₁, h₂]
    · intro huni t ht
      obtain ⟨pid, hpid, rfl⟩ := List.mem_map.mp ht
      obtain ⟨c, hc, hidc⟩ := (hmem pid).mp (by rw [hp]; exact hpid)
      rw [hhead, ← hidc, hcell c hc]
      exact huni c hc c₀ hc₀

theorem window_effect_gold {b : Board} {x y : Nat} {e : SquareEffect}
    (h : window_effect b x y = some e) :
    window_ok b x y = true ∧
    candidate_valid b x y (region_ids (orig_of b x y)) = true ∧
    e.is_gold = all_same_types
      (region_types (orig_of b x y) (region_ids (orig_of b x y))) := by
  unfold window_effect at h
  split at h
  · split at h
    · injection h with h
      subst h
      exact ⟨by assumption, by assumption, rfl⟩
    · exact absurd h (by simp)
  · exact absurd h (by simp)

/-- C5.  A window qualifies (i.e. `window_effect` returns an effect) iff
all 16 cells are occupied by non-bonus cells and every piece id appearing
in the window lies entirely inside the window; and — whenever cells sharing
a piece id share a kind, so "the kind of a contributing piece" is
well-defined — a qualifying window is classified gold exactly when all
window cells (hence all contributing pieces) have the same kind, and
silver otherwise. -/
theorem c5_window_qualification (b : Board) (x y : Nat) :
    ((window_effect b x y).isSome = true ↔ SpecQualifies b x y) ∧
    (∀ e, window_effect b x y = some e →
       (∀ c₁, InWindowCell b x y c₁ → ∀ c₂, InWindowCell b x y c₂ →
          c₁.piece_id = c₂.piece_id → c₁.t_type = c₂.t_type) →
       (e.is_gold = true ↔
          ∀ c₁, InWindowCell b x y c₁ → ∀ c₂, InWindowCell b x y c₂ →
            c₁.t_type = c₂.t_type)) := by
  constructor
  · unfold window_effect
    by_cases hok : window_ok b x y
    · rw [if_pos hok]
      by_cases hcv : candidate_valid b x y (region_ids (orig_of b x y))
      · rw [if_pos hcv]
        simp only [Option.isSome_some, true_iff]
        constructor
        · exact (window_ok_iff b x y).mp hok
        · intro c hcwin row col hrow hcol c' hc' hid
          have hpid : c.piece_id ∈ region_ids (orig_of b x y) := by
            unfold region_ids
            rw [dedup_ids_mem]
            exact Or.inr ⟨c, (mem_orig_flatten b x y hok c).mpr hcwin, rfl⟩
          exact (candidate_valid_iff b x y _).mp hcv c.piece_id hpid
            row col hrow hcol c' hc' hid
      · rw [if_neg hcv]
        simp only [Option.isSome_none, Bool.false_eq_true, false_iff]
        intro hspec
        refine hcv ((candidate_valid_iff b x y _).mpr ?_)
        intro pid hpid row col hrow hcol c' hc' hid
        unfold region_ids at hpid
        rw [dedup_ids_mem] at hpid
        rcases hpid with h | ⟨c, hc, hidc⟩
        · exact absurd h (by simp)
        · have hcwin := (mem_orig_flatten b x y hok c).mp hc
          exact hspec.2 c hcwin row col hrow hcol c' hc' (by rw [hid, hidc])
    · rw [if_neg hok]
      simp only [Option.isSome_none, Bool.false_eq_true, false_iff]
      intro hspec
      exact hok ((window_ok_iff b x y).mpr hspec.1)
  · intro e he hWT
    obtain ⟨hok, _, hgold⟩ := window_effect_gold he
    have htr : ∀ c : Cell,
        c ∈ (orig_of b x y).flatten ↔ InWindowCell b x y c :=
      mem_orig_flatten b x y hok
    have hne : (orig_of b x y).flatten ≠ [] := by
      obtain ⟨c₀, hc₀, _, _⟩ :=
        (window_ok_iff b x y).mp hok 0 0 (by omega) (by omega)
      exact List.ne_nil_of_mem ((htr c₀).mpr ⟨0, 0, by omega, by omega, hc₀⟩)
    have hWT' : ∀ c₁ ∈ (orig_of b x y).flatten,
        ∀ c₂ ∈ (orig_of b x y).flatten,
        c₁.piece_id = c₂.piece_id → c₁.t_type = c₂.t_type := by
      intro c₁ h₁ c₂ h₂
      exact hWT c₁ ((htr c₁).mp h₁) c₂ ((htr c₂).mp h₂)
    have hcore := region_gold_iff (orig_of b x y).flatten hne hWT'
    rw [hgold]
    unfold region_types region_ids
    rw [hcore]
    constructor
    · intro huni c₁ h₁ c₂ h₂
      exact huni c₁ ((htr c₁).mpr h₁) c₂ ((htr c₂).mpr h₂)
    · intro huni c₁ h₁ c₂ h₂
      exact huni c₁ ((htr c₁).mp h₁) c₂ ((htr c₂).mp h₂)

/-- Closed instance of C5: the four-O board `c6board` qualifies at `(0, 16)`
(all hypotheses discharged by evaluation or by the uniform-kind argument)
and is classified gold. -/
theorem c5_window_qualification_witness :
    SpecQualifies c6board 0 16 ∧
    (window_effect c6board 0 16).map SquareEffect.is_gold = some true := by
  have main := c5_window_qualification c6board 0 16
  have hkinds : ∀ dx : Nat, dx < 4 → ∀ dy : Nat, dy < 4 →
      ((boardGet c6board (0 + dx) (16 + dy)).getD ⟨.black, .I, 0⟩).t_type
        = .O := by decide
  have hW : ∀ c₁, InWindowCell c6board 0 16 c₁ → c₁.t_type = .O := by
    rintro c₁ ⟨dx, dy, hdx, hdy, hc⟩
    have h := hkinds dx hdx dy hdy
    rw [hc] at h
    exact h
  refine ⟨main.1.mp (by decide), ?_⟩
  rcases hwe : window_effect c6board 0 16 with _ | e
  · exact absurd (by decide : (window_effect c6board 0 16).isSome = true)
      (by rw [hwe]; simp)
  · have hg := (main.2 e hwe
      (fun c₁ h₁ c₂ h₂ _ => by rw [hW c₁ h₁, hW c₂ h₂])).mpr
      (fun c₁ h₁ c₂ h₂ => by rw [hW c₁ h₁, hW c₂ h₂])
    simp [hg]

/-! ## C3: row-clear correctness -/

/-- Number of indices in `[n, n+i)` that belong to `cl` (the rows removed
below a given point, seen from the top). -/
def cnt_removed (cl : List Nat) : Nat → Nat → Nat
  | _, 0 => 0
  | n, i + 1 => (if n ∈ cl then 1 else 0) + cnt_removed cl (n + 1) i

theorem cnt_removed_le (cl : List Nat) : ∀ (i n : Nat),
    cnt_removed cl n i ≤ i := by
  intro i
  induction i with
  | zero => intro n; exact Nat.le_refl 0
  | succ k ih =>
    intro n
    unfold cnt_removed
    have := ih (n + 1)
    by_cases h : n ∈ cl <;> simp [h] <;> omega

theorem kept_rows_from_getElem (cl : List Nat) :
    ∀ (l : Board) (n i : Nat), i < l.length → (n + i) ∉ cl →
      (kept_rows_from cl n l)[i - cnt_removed cl n i]? = l[i]? := by
  intro l
  induction l with
  | nil => intro n i hi _; exact absurd hi (by simp)
  | cons r rs ih =>
    intro n i hi hnotin
    match i with
    | 0 =>
      have hn : n ∉ cl := by simpa using hnotin
      unfold kept_rows_from
      rw [if_neg hn]
      simp [cnt_removed]
    | k + 1 =>
      have hk : k < rs.length := by simpa using hi
      have hk' : (n + 1) + k ∉ cl := by
        have : n + 1 + k = n + (k + 1) := by omega
        rw [this]; exact hnotin
      by_cases hn : n ∈ cl
      · unfold kept_rows_from
        rw [if_pos hn]
        unfold cnt_removed
        rw [if_pos hn]
        have hidx : k + 1 - (1 + cnt_removed cl (n + 1) k)
            = k - cnt_removed cl (n + 1) k := by omega
        rw [hidx]
        rw [ih (n + 1) k hk hk']
        simp
      · unfold kept_rows_from
        rw [if_neg hn]
        unfold cnt_removed
        rw [if_neg hn]
        have hle := cnt_removed_le cl k (n + 1)
        have hidx : k + 1 - (0 + cnt_removed cl (n + 1) k)
            = (k - cnt_removed cl (n + 1) k) + 1 := by omega
        rw [hidx]
        rw [List.getElem?_cons_succ, List.getElem?_cons_succ]
        exact ih (n + 1) k hk hk'

theorem kept_rows_from_length (cl : List Nat) :
    ∀ (l : Board) (n : Nat),
      (kept_rows_from cl n l).length = l.length - cnt_removed cl n l.length := by
  intro l
  induction l with
  | nil => intro n; rfl
  | cons r rs ih =>
    intro n
    have hle := cnt_removed_le cl rs.length (n + 1)
    have hcnt : cnt_removed cl n (rs.length + 1)
        = (if n ∈ cl then 1 else 0) + cnt_removed cl (n + 1) rs.length := rfl
    unfold kept_rows_from
    by_cases hn : n ∈ cl
    · rw [if_pos hn, ih (n + 1)]
      simp only [List.length_cons, hcnt, if_pos hn]
      omega
    · rw [if_neg hn]
      simp only [List.length_cons, List.length_cons, hcnt, if_neg hn,
        ih (n + 1)]
      omega

theorem full_rows_from_mem_bounds :
    ∀ (l : Board) (n : Nat), ∀ r ∈ full_rows_from n l,
      n ≤ r ∧ r < n + l.length := by
  intro l
  induction l with
  | nil => intro n r hr; exact absurd hr (by simp [full_rows_from])
  | cons row rs ih =>
    intro n r hr
    unfold full_rows_from at hr
    by_cases hfull : row.all Option.isSome
    · rw [if_pos hfull] at hr
      rcases List.mem_cons.mp hr with rfl | hr
      · simp
      · have := ih (n + 1) r hr
        constructor <;> [omega; (simp only [List.length_cons]; omega)]
    · rw [if_neg hfull] at hr
      have := ih (n + 1) r hr
      constructor <;> [omega; (simp only [List.length_cons]; omega)]

theorem full_rows_from_nodup :
    ∀ (l : Board) (n : Nat), (full_rows_from n l).Nodup := by
  intro l
  induction l with
  | nil => intro n; simp [full_rows_from]
  | cons row rs ih =>
    intro n
    unfold full_rows_from
    by_cases hfull : row.all Option.isSome
    · rw [if_pos hfull]
      refine List.nodup_cons.mpr ⟨?_, ih (n + 1)⟩
      intro hmem
      have := (full_rows_from_mem_bounds rs (n + 1) n hmem).1
      omega
    · rw [if_neg hfull]
      exact ih (n + 1)

theorem countP_or_disjoint (l : List Nat) (p q : Nat → Bool)
    (h : ∀ r ∈ l, ¬(p r = true ∧ q r = true)) :
    l.countP (fun r => p r || q r) = l.countP p + l.countP q := by
  induction l with
  | nil => rfl
  | cons a l ih =>
    have ha := h a (by simp)
    have ih' := ih (fun r hr => h r (List.mem_cons_of_mem _ hr))
    rw [List.countP_cons, List.countP_cons, List.countP_cons, ih']
    by_cases hp : p a <;> by_cases hq : q a <;> simp [hp, hq] at ha ⊢ <;> omega

theorem countP_eq_single (cl : List Nat) (hnd : cl.Nodup) (n : Nat) :
    cl.countP (fun r => decide (r = n)) = if n ∈ cl then 1 else 0 := by
  induction cl with
  | nil => rfl
  | cons a l ih =>
    obtain ⟨hna, hnd'⟩ := List.nodup_cons.mp hnd
    rw [List.countP_cons, ih hnd']
    by_cases ha : a = n
    · subst ha
      rw [if_neg hna, if_pos (by simp)]
      simp
    · have hz : (if decide (a = n) = true then 1 else 0) = 0 := by simp [ha]
      rw [hz, Nat.add_zero]
      by_cases hn : n ∈ l
      · rw [if_pos hn, if_pos (List.mem_cons_of_mem a hn)]
      · rw [if_neg hn, if_neg ?_]
        intro h
        rcases List.mem_cons.mp h with h | h
        · exact ha h.symm
        · exact hn h

theorem cnt_removed_countP (cl : List Nat) (hnd : cl.Nodup) :
    ∀ (i n : Nat), cnt_removed cl n i =
      cl.countP (fun r => decide (n ≤ r ∧ r < n + i)) := by
  intro i
  induction i with
  | zero =>
    intro n
    unfold cnt_removed
    symm
    rw [List.countP_eq_zero]
    intro r _
    simp only [Nat.add_zero, decide_eq_true_eq, not_and]
    omega
  | succ k ih =>
    intro n
    unfold cnt_removed
    rw [ih (n + 1)]
    have hsplit : cl.countP (fun r => decide (n ≤ r ∧ r < n + (k + 1)))
        = cl.countP (fun r =>
            decide (r = n) || decide (n + 1 ≤ r ∧ r < n + 1 + k)) := by
      refine List.countP_congr ?_
      intro r _
      simp only [Bool.or_eq_true, decide_eq_true_eq]
      omega
    rw [hsplit, countP_or_disjoint _ _ _ ?_]
    · rw [countP_eq_single cl hnd n]
    · intro r _ h
      obtain ⟨h1, h2⟩ := h
      simp only [decide_eq_true_eq] at h1 h2
      omega

theorem spawn_new_tetromino_fields (rng : TetrominoType) (s : GameState) :
    (spawn_new_tetromino rng s).board = s.board ∧
    (spawn_new_tetromino rng s).lines_cleared = s.lines_cleared ∧
    (spawn_new_tetromino rng s).clearing_lines = s.clearing_lines := by
  unfold spawn_new_tetromino
  split
  · exact ⟨rfl, rfl, rfl⟩
  · split
    · exact ⟨rfl, rfl, rfl⟩
    · split <;> exact ⟨rfl, rfl, rfl⟩

theorem clear_lines_delayed_fields (rng : TetrominoType) (s : GameState) :
    (clear_lines_delayed rng s).board = (cleared_state s).board ∧
    (clear_lines_delayed rng s).lines_cleared =
      (cleared_state s).lines_cleared ∧
    (clear_lines_delayed rng s).clearing_lines =
      (cleared_state s).clearing_lines := by
  obtain ⟨h1, h2, h3⟩ := spawn_new_tetromino_fields rng (cleared_state s)
  unfold clear_lines_delayed
  split
  · split
    · exact ⟨rfl, rfl, rfl⟩
    · exact ⟨h1, h2, h3⟩
  · exact ⟨h1, h2, h3⟩

/-- C3.  On a state whose board's set of full rows is exactly `R` (and with
`R` pending as the clearing set, as `lock_tetromino` arranges), the delayed
clear produces a 20-row board whose top `|R|` rows are empty, in which every
surviving row `i` reappears — contents unchanged, relative order preserved —
shifted down by the number of removed rows below it, and `lines_cleared`
grows by `|R|` while the pending set empties. -/
theorem c3_row_clear (s : GameState) (R : List Nat) (rng : TetrominoType)
    (hfull : full_rows s.board = R)
    (hcl : s.clearing_lines = R)
    (hlen : s.board.length = 20) :
    (clear_lines_delayed rng s).board.length = 20 ∧
    (∀ j : Nat, j < R.length →
       (clear_lines_delayed rng s).board[j]? = some emptyRow) ∧
    (∀ i : Nat, i < 20 → i ∉ R →
       (clear_lines_delayed rng s).board[i +
           R.countP (fun r => decide (i < r))]?
         = s.board[i]?) ∧
    (clear_lines_delayed rng s).lines_cleared
      = s.lines_cleared + R.length ∧
    (clear_lines_delayed rng s).clearing_lines = [] := by
  obtain ⟨hfb, hfl, hfc⟩ := clear_lines_delayed_fields rng s
  have hnd : R.Nodup := hfull ▸ full_rows_from_nodup s.board 0
  have hfull' : full_rows_from 0 s.board = R := hfull
  have hbnd : ∀ r ∈ R, r < 20 := by
    intro r hr
    have := full_rows_from_mem_bounds s.board 0 r (by rw [hfull']; exact hr)
    omega
  have hboard : (cleared_state s).board =
      List.replicate (20 - (kept_rows_from R 0 s.board).length) emptyRow
        ++ kept_rows_from R 0 s.board := by
    simp only [cleared_state]
    rw [hcl]
  have hKlen : (kept_rows_from R 0 s.board).length
      = 20 - cnt_removed R 0 20 := by
    have := kept_rows_from_length R s.board 0
    rw [hlen] at this
    exact this
  have hc20 : cnt_removed R 0 20 = R.length := by
    rw [cnt_removed_countP R hnd 20 0]
    refine List.countP_eq_length.mpr ?_
    intro r hr
    have := hbnd r hr
    simp only [decide_eq_true_eq]
    omega
  have hcle : cnt_removed R 0 20 ≤ 20 := cnt_removed_le R 20 0
  have hpad : 20 - (kept_rows_from R 0 s.board).length = R.length := by
    rw [hKlen]
    omega
  refine ⟨?_, ?_, ?_, ?_, ?_⟩
  · rw [hfb, hboard]
    simp only [List.length_append, List.length_replicate]
    omega
  · intro j hj
    rw [hfb, hboard]
    rw [List.getElem?_append_left
      (by rw [List.length_replicate, hpad]; exact hj)]
    rw [hpad]
    simp [List.getElem?_replicate, hj]
  · intro i hi hiR
    have hlti : cnt_removed R 0 i = R.countP (fun r => decide (r < i)) := by
      rw [cnt_removed_countP R hnd i 0]
      refine List.countP_congr ?_
      intro r _
      simp only [decide_eq_true_eq]
      omega
    have hcomp' : R.countP (fun r => decide (r < i))
        + R.countP (fun r => decide (i < r)) = R.length := by
      rw [← countP_or_disjoint R _ _
        (fun r _ h => by
          obtain ⟨h1, h2⟩ := h
          simp only [decide_eq_true_eq] at h1 h2
          omega)]
      refine List.countP_eq_length.mpr ?_
      intro r hr
      have hne : r ≠ i := fun h => hiR (h ▸ hr)
      simp only [Bool.or_eq_true, decide_eq_true_eq]
      omega
    have hile : cnt_removed R 0 i ≤ i := cnt_removed_le R i 0
    rw [hfb, hboard]
    rw [List.getElem?_append_right
      (by rw [List.length_replicate, hpad]; omega)]
    rw [List.length_replicate, hpad]
    have hidx : i + R.countP (fun r => decide (i < r)) - R.length
        = i - cnt_removed R 0 i := by omega
    rw [hidx]
    exact kept_rows_from_getElem R s.board 0 i (by omega)
      (by rw [Nat.zero_add]; exact hiR)
  · rw [hfl]
    simp only [cleared_state]
    rw [hcl]
  · rw [hfc]
    simp only [cleared_state]

/-- The board of the spec's row-clear scenario: rows 3 and 7 fully occupied,
all others empty. -/
def c3row : Row := List.replicate 10 (some ⟨.cyan, .I, 9⟩)

def c3board : Board :=
  List.replicate 3 emptyRow ++ [c3row] ++ List.replicate 3 emptyRow
    ++ [c3row] ++ List.replicate 12 emptyRow

def c3state : GameState :=
  { GameState.new with board := c3board, clearing_lines := [3, 7] }

/-- Closed instance of C3 at the spec's own scenario (full rows exactly
`{3, 7}`): all hypotheses discharged by evaluation. -/
theorem c3_row_clear_witness :
    (clear_lines_delayed .I c3state).board.length = 20 ∧
    (∀ j : Nat, j < ([3, 7] : List Nat).length →
       (clear_lines_delayed .I c3state).board[j]? = some emptyRow) ∧
    (∀ i : Nat, i < 20 → i ∉ ([3, 7] : List Nat) →
       (clear_lines_delayed .I c3state).board[i +
           ([3, 7] : List Nat).countP (fun r => decide (i < r))]?
         = c3state.board[i]?) ∧
    (clear_lines_delayed .I c3state).lines_cleared
      = c3state.lines_cleared + ([3, 7] : List Nat).length ∧
    (clear_lines_delayed .I c3state).clearing_lines = [] :=
  c3_row_clear c3state [3, 7] .I (by decide) rfl (by decide)

end Tetris
